import Mathlib

/-!
Shallow embedding of the MyUniversityList data pipeline
(`src/utils/dataParser.ts` and the table / filter components) in Lean 4.

JavaScript strings are modelled as Lean `String` / `List Char`; JavaScript
numbers (which may be `NaN`) are modelled by `JSNum` below, with `Rat` for
the finite values.  Functions that can throw in JavaScript are modelled as
`Option`-valued functions, `none` standing for a thrown exception.
-/

/-! ## JavaScript string primitives -/

/-- The whitespace class used by JavaScript `\s`, `trim()` (ASCII part plus NBSP). -/
def jsIsSpace (c : Char) : Bool :=
  c = ' ' || c = '\t' || c = '\n' || c = '\r' ||
  c = Char.ofNat 11 || c = Char.ofNat 12 || c = Char.ofNat 160

/-- JavaScript `\w`: ASCII letters, digits and underscore. -/
def isWordChar (c : Char) : Bool :=
  ('a' ≤ c && c ≤ 'z') || ('A' ≤ c && c ≤ 'Z') || ('0' ≤ c && c ≤ '9') || c = '_'

/-- Character class `[\w.-]` used by `EMAIL_REGEX` for local part and domain. -/
def isLocalChar (c : Char) : Bool :=
  isWordChar c || c = '.' || c = '-'

/-- Character class `[a-zA-Z]` used by `EMAIL_REGEX` for the TLD. -/
def isTldChar (c : Char) : Bool :=
  ('a' ≤ c && c ≤ 'z') || ('A' ≤ c && c ≤ 'Z')

/-- ASCII lower-casing of a character (JavaScript `toLowerCase` on ASCII input). -/
def jsCharToLower (c : Char) : Char :=
  if 'A' ≤ c && c ≤ 'Z' then Char.ofNat (c.toNat + 32) else c

/-- JavaScript `String.prototype.toLowerCase`, restricted to ASCII case mapping. -/
def jsToLower (s : String) : String :=
  String.mk (s.toList.map jsCharToLower)

/-- `hay` starts with `pat` (helper for the substring test). -/
def listStartsWith : List Char → List Char → Bool
  | _, [] => true
  | [], _ :: _ => false
  | h :: hs, p :: ps => (h == p) && listStartsWith hs ps

/-- `pat` occurs as a contiguous substring of `hay` (helper for `jsIncludes`). -/
def listContainsSub (hay pat : List Char) : Bool :=
  match hay with
  | [] => pat.isEmpty
  | _ :: t => if listStartsWith hay pat then true else listContainsSub t pat

/-- JavaScript `String.prototype.includes`: substring containment. -/
def jsIncludes (s sub : String) : Bool :=
  listContainsSub s.toList sub.toList

/-- JavaScript `String.prototype.trim`: drop leading and trailing whitespace. -/
def jsTrim (s : String) : String :=
  String.mk (((s.toList.dropWhile jsIsSpace).reverse.dropWhile jsIsSpace).reverse)

/-! ## JavaScript numbers -/

/-- A JavaScript number: either `NaN` or a finite value (modelled as a rational). -/
inductive JSNum where
  | nan : JSNum
  | num : Rat → JSNum
deriving DecidableEq, Repr

/-- JavaScript `v || d` for a number `v` and fallback `d`: `NaN` and `0` are falsy. -/
def jsOrNum (v : JSNum) (d : Rat) : Rat :=
  match v with
  | .nan => d
  | .num x => if x = 0 then d else x

/-- JavaScript `v >= b` (false when `v` is `NaN`). -/
def jsGe (v : JSNum) (b : Rat) : Bool :=
  match v with
  | .nan => false
  | .num x => b ≤ x

/-- JavaScript `v <= b` (false when `v` is `NaN`). -/
def jsLe (v : JSNum) (b : Rat) : Bool :=
  match v with
  | .nan => false
  | .num x => x ≤ b

/-- JavaScript `v > 0` (false when `v` is `NaN`). -/
def jsGtZero (v : JSNum) : Bool :=
  match v with
  | .nan => false
  | .num x => 0 < x

/-- The ASCII digit character for `n < 10`. -/
def digitChar (n : Nat) : Char := Char.ofNat (48 + n)

/-- Decimal digits of the fraction `r / d` (`r < d`) by long division, with fuel. -/
def fracDigitsAux (d : Nat) : Nat → Nat → List Char
  | 0, _ => []
  | fuel + 1, r =>
    if r = 0 then []
    else digitChar (r * 10 / d) :: fracDigitsAux d fuel (r * 10 % d)

/-- JavaScript number-to-string conversion, exact for terminating decimals
(the shapes occurring in the dataset). -/
def ratToDecimalString (q : Rat) : String :=
  let sgn := if q.num < 0 then "-" else ""
  let n := q.num.natAbs
  let d := q.den
  let ds := fracDigitsAux d 20 (n % d)
  sgn ++ toString (n / d) ++ (if ds.isEmpty then "" else "." ++ String.mk ds)

/-- JavaScript template-literal stringification of a number. -/
def jsNumToString (v : JSNum) : String :=
  match v with
  | .nan => "NaN"
  | .num q => ratToDecimalString q

/-! ## `decodeURIComponent`

Modelled from ECMAScript semantics: percent escapes are decoded to bytes,
the byte runs must form valid UTF-8, and a malformed escape or an invalid
byte sequence throws `URIError` (modelled as `none`). -/

/-- Value of a hex digit character. -/
def hexDigit (c : Char) : Option Nat :=
  if '0' ≤ c && c ≤ '9' then some (c.toNat - 48)
  else if 'A' ≤ c && c ≤ 'F' then some (c.toNat - 65 + 10)
  else if 'a' ≤ c && c ≤ 'f' then some (c.toNat - 97 + 10)
  else none

/-- Split a character list into percent-decoded bytes (`Sum.inl`) and plain
characters (`Sum.inr`); `none` when a `%` is not followed by two hex digits. -/
def percentTokens : List Char → Option (List (Sum Nat Char))
  | [] => some []
  | '%' :: c1 :: c2 :: rest => do
      let h1 ← hexDigit c1
      let h2 ← hexDigit c2
      let t ← percentTokens rest
      some (Sum.inl (16 * h1 + h2) :: t)
  | '%' :: _ => none
  | c :: rest => do
      let t ← percentTokens rest
      some (Sum.inr c :: t)

/-- A UTF-8 continuation byte. -/
def isContByte (b : Nat) : Bool := 0x80 ≤ b && b ≤ 0xBF

/-- Decode the token stream: runs of percent-decoded bytes must form valid
UTF-8 sequences; otherwise the decoding throws (`none`). -/
def decodeTokens : List (Sum Nat Char) → Option (List Char)
  | [] => some []
  | Sum.inr c :: rest => do
      let t ← decodeTokens rest
      some (c :: t)
  | Sum.inl b :: rest =>
      if b < 0x80 then do
        let t ← decodeTokens rest
        some (Char.ofNat b :: t)
      else if 0xC2 ≤ b && b ≤ 0xDF then
        match rest with
        | Sum.inl b2 :: rest2 =>
          if isContByte b2 then do
            let t ← decodeTokens rest2
            some (Char.ofNat ((b - 0xC0) * 64 + (b2 - 0x80)) :: t)
          else none
        | _ => none
      else if 0xE0 ≤ b && b ≤ 0xEF then
        match rest with
        | Sum.inl b2 :: Sum.inl b3 :: rest2 =>
          let lo2 := if b = 0xE0 then 0xA0 else 0x80
          let hi2 := if b = 0xED then 0x9F else 0xBF
          if (lo2 ≤ b2 && b2 ≤ hi2) && isContByte b3 then do
            let t ← decodeTokens rest2
            some (Char.ofNat ((b - 0xE0) * 4096 + (b2 - 0x80) * 64 + (b3 - 0x80)) :: t)
          else none
        | _ => none
      else if 0xF0 ≤ b && b ≤ 0xF4 then
        match rest with
        | Sum.inl b2 :: Sum.inl b3 :: Sum.inl b4 :: rest2 =>
          let lo2 := if b = 0xF0 then 0x90 else 0x80
          let hi2 := if b = 0xF4 then 0x8F else 0xBF
          if (lo2 ≤ b2 && b2 ≤ hi2) && isContByte b3 && isContByte b4 then do
            let t ← decodeTokens rest2
            some (Char.ofNat ((b - 0xF0) * 262144 + (b2 - 0x80) * 4096 + (b3 - 0x80) * 64 + (b4 - 0x80)) :: t)
          else none
        | _ => none
      else none

/-- ECMAScript `decodeURIComponent`; `none` models a thrown `URIError`. -/
def decodeURIComponent (s : String) : Option String := do
  let toks ← percentTokens s.toList
  let cs ← decodeTokens toks
  some (String.mk cs)

/-! ## `extractLinks` (URL_REGEX = `/https?:\/\/[^\s]+/g`) -/

/-- Length of the maximal run of non-whitespace characters (`[^\s]+`, greedy). -/
def countNonSpace (l : List Char) : Nat :=
  (l.takeWhile (fun c => !jsIsSpace c)).length

/-- Length of the match of `https?:\/\/[^\s]+` anchored at the head of `l`,
or `none` when the head does not match. -/
def matchUrlLen (l : List Char) : Option Nat :=
  match l with
  | 'h' :: 't' :: 't' :: 'p' :: 's' :: ':' :: '/' :: '/' :: r =>
      let n := countNonSpace r
      if n = 0 then none else some (8 + n)
  | 'h' :: 't' :: 't' :: 'p' :: ':' :: '/' :: '/' :: r =>
      let n := countNonSpace r
      if n = 0 then none else some (7 + n)
  | _ => none

/-- One left-to-right global-regex pass: collect all URL matches and the text
with the matches deleted.  The fuel argument is an upper bound on the number
of scanning steps; every step consumes at least one character, so fuel equal
to the length of the list is sufficient. -/
def scanUrlsAux : Nat → List Char → List (List Char) × List Char
  | _, [] => ([], [])
  | 0, l => ([], l)
  | fuel + 1, c :: rest =>
    match matchUrlLen (c :: rest) with
    | some n =>
      let p := scanUrlsAux fuel ((c :: rest).drop n)
      ((c :: rest).take n :: p.1, p.2)
    | none =>
      let p := scanUrlsAux fuel rest
      (p.1, c :: p.2)

/-- All matches of `URL_REGEX` in order of appearance, and the text with the
matches removed (the combined effect of `text.match(URL_REGEX)` and
`text.replace(URL_REGEX, '')`). -/
def scanUrls (l : List Char) : List (List Char) × List Char :=
  scanUrlsAux l.length l

/-- Result shape of `extractLinks`. -/
structure LinksResult where
  text : String
  links : List String
deriving DecidableEq, Repr

/-- `extractLinks` from `dataParser.ts`: falsy input yields the empty result;
otherwise the URL matches are removed from the text, the remainder is
trimmed, and each link is percent-decoded.  `none` models the `URIError`
thrown by `decodeURIComponent` on a malformed escape. -/
def extractLinks (text : String) : Option LinksResult :=
  if text = "" then some ⟨"", []⟩
  else
    let p := scanUrls text.toList
    match (p.1.map (fun m => String.mk m)).mapM decodeURIComponent with
    | some links => some ⟨jsTrim (String.mk p.2), links⟩
    | none => none

/-! ## Generic first-match search

`searchFirst f l p` scans start positions left to right, as a regex engine
does; `f` reports the length of a match anchored at the given suffix.  The
result is the pair (match start, match end) of the leftmost match. -/

def searchFirst (f : List Char → Option Nat) : List Char → Nat → Option (Nat × Nat)
  | [], _ => none
  | c :: t, p =>
    match f (c :: t) with
    | some n => some (p, p + n)
    | none => searchFirst f t (p + 1)

/-! ## `EMAIL_REGEX = /[\w.-]+@[\w.-]+\.[a-zA-Z]{2,}/g` and `isEmail` -/

/-- Candidate lengths for the greedy-with-backtracking `[\w.-]+` chunk of the
domain: `n, n-1, …, 1` (largest first, as a backtracking engine tries them). -/
def descRange (n : Nat) : List Nat :=
  (List.range n).map (fun i => n - i)

/-- Length matched by `[\w.-]+\.[a-zA-Z]{2,}` anchored at the head of `l`:
the domain chunk is greedy, backtracking to the largest split whose next
character is a literal dot followed by at least two ASCII letters (the
trailing `{2,}` is greedy, taking the whole letter run). -/
def matchDomainTail (l : List Char) : Option Nat :=
  let run := (l.takeWhile isLocalChar).length
  match (descRange run).find? (fun k =>
      (l[k]? == some '.') && 2 ≤ ((l.drop (k + 1)).takeWhile isTldChar).length) with
  | some k => some (k + 1 + ((l.drop (k + 1)).takeWhile isTldChar).length)
  | none => none

/-- Length matched by the whole `EMAIL_REGEX` pattern anchored at the head of
`l`.  The local `[\w.-]+` chunk cannot usefully backtrack (every shorter
prefix ends at a `[\w.-]` character, never at `@`), so it is the maximal
class run. -/
def matchEmailAt (l : List Char) : Option Nat :=
  let loc := l.takeWhile isLocalChar
  if loc.isEmpty then none
  else
    match l.drop loc.length with
    | '@' :: rest => (matchDomainTail rest).map (fun d => loc.length + 1 + d)
    | _ => none

/-- `isEmail` from `dataParser.ts`: `EMAIL_REGEX.test(str)`.  Because the
regex carries the `g` flag, `test` starts searching at the regex object's
persistent `lastIndex`, sets it to the match end on success and resets it to
0 on failure.  That mutable `lastIndex` is threaded explicitly as the `st`
argument and the second component of the result. -/
def isEmail (s : String) (st : Nat) : Bool × Nat :=
  let l := s.toList
  if l.length < st then (false, 0)
  else
    match searchFirst matchEmailAt (l.drop st) st with
    | some pe => (true, pe.2)
    | none => (false, 0)

/-! ## `parseDeadline` date patterns -/

/-- Length matched by `\d{4}-\d{2}-\d{2}` anchored at the head of `l`. -/
def matchIsoAt (l : List Char) : Option Nat :=
  match l with
  | a :: b :: c :: d :: '-' :: e :: f :: '-' :: g :: h :: _ =>
    if [a, b, c, d, e, f, g, h].all Char.isDigit then some 10 else none
  | _ => none

/-- The twelve abbreviations of the second deadline pattern, lower-cased. -/
def monthAbbrevs : List (List Char) :=
  [['j','a','n'], ['f','e','b'], ['m','a','r'], ['a','p','r'], ['m','a','y'],
   ['j','u','n'], ['j','u','l'], ['a','u','g'], ['s','e','p'], ['o','c','t'],
   ['n','o','v'], ['d','e','c']]

/-- Length matched by `(Jan|Feb|…|Dec)\s+\d{4}` (case-insensitive) anchored at
the head of `l`.  Backtracking of the greedy `\s+` never helps because a
digit is not whitespace. -/
def matchMonYearAt (l : List Char) : Option Nat :=
  match l with
  | a :: b :: c :: rest =>
    if monthAbbrevs.contains [jsCharToLower a, jsCharToLower b, jsCharToLower c] then
      let ws := (rest.takeWhile jsIsSpace).length
      if ws = 0 then none
      else
        let afterWs := rest.drop ws
        if 4 ≤ afterWs.length && (afterWs.take 4).all Char.isDigit then
          some (3 + ws + 4)
        else none
    else none
  | _ => none

/-- Length consumed by `,?\s+\d{4}` anchored at the head of `l`.  The greedy
`,?` tries the comma first; when the comma branch fails the no-comma branch
starts at the comma character and `\s+` fails there, so no further
backtracking arises. -/
def matchTailYear (l : List Char) : Option Nat :=
  let wsDigits : List Char → Option Nat := fun m =>
    let ws := (m.takeWhile jsIsSpace).length
    if ws = 0 then none
    else if 4 ≤ (m.drop ws).length && ((m.drop ws).take 4).all Char.isDigit then
      some (ws + 4)
    else none
  match l with
  | ',' :: r =>
    match wsDigits r with
    | some n => some (n + 1)
    | none => wsDigits l
  | _ => wsDigits l

/-- Length matched by `\w+\s+\d{1,2},?\s+\d{4}` anchored at the head of `l`.
`\w+` and `\s+` cannot usefully backtrack (their shorter prefixes end at a
character of the same class); the greedy `\d{1,2}` tries two digits, then
one. -/
def matchFullDateAt (l : List Char) : Option Nat :=
  let w := (l.takeWhile isWordChar).length
  if w = 0 then none
  else
    let r1 := l.drop w
    let s1 := (r1.takeWhile jsIsSpace).length
    if s1 = 0 then none
    else
      let r2 := r1.drop s1
      let dRun := (r2.takeWhile Char.isDigit).length
      let try2 :=
        if 2 ≤ dRun then (matchTailYear (r2.drop 2)).map (fun n => w + s1 + 2 + n)
        else none
      match try2 with
      | some n => some n
      | none =>
        if 1 ≤ dRun then (matchTailYear (r2.drop 1)).map (fun n => w + s1 + 1 + n)
        else none

/-- Result shape of `parseDeadline`. -/
structure DeadlineResult where
  date : String
  notes : String
  links : List String
deriving DecidableEq, Repr

/-- Delete the half-open index range `[p, e)` from `l` and trim the result
(JavaScript `cleanText.replace(pattern, '').trim()` for a first-match
replace). -/
def removeRangeTrim (l : List Char) (p e : Nat) : String :=
  jsTrim (String.mk (l.take p ++ l.drop e))

/-- `parseDeadline` from `dataParser.ts`: strip links first, then try the
three date patterns in order, returning for the first one that matches the
text of its first capture group as `date` (for the second pattern the group
covers only the month abbreviation) and the text with the whole match
removed, trimmed, as `notes`.  When no pattern matches, `date` is empty and
`notes` is the link-stripped text.  `none` models an exception propagated
from `extractLinks`. -/
def parseDeadline (text : String) : Option DeadlineResult :=
  if text = "" then some ⟨"", "", []⟩
  else
    match extractLinks text with
    | none => none
    | some res =>
      let cl := res.text.toList
      match searchFirst matchIsoAt cl 0 with
      | some pe =>
        some ⟨String.mk ((cl.drop pe.1).take (pe.2 - pe.1)), removeRangeTrim cl pe.1 pe.2, res.links⟩
      | none =>
        match searchFirst matchMonYearAt cl 0 with
        | some pe =>
          some ⟨String.mk ((cl.drop pe.1).take 3), removeRangeTrim cl pe.1 pe.2, res.links⟩
        | none =>
          match searchFirst matchFullDateAt cl 0 with
          | some pe =>
            some ⟨String.mk ((cl.drop pe.1).take (pe.2 - pe.1)), removeRangeTrim cl pe.1 pe.2, res.links⟩
          | none => some ⟨"", res.text, res.links⟩

/-! ## `formatDate`

Modelled from ECMAScript `Date` semantics: `new Date(string)` never throws;
a string the engine cannot parse yields an *invalid date* (modelled `none`
— the model parses the ISO `YYYY-MM-DD` form and leaves the remaining
implementation-defined formats unparsed), and
`toLocaleDateString('en-US', …)` on an invalid date returns the string
`"Invalid Date"` rather than throwing.  Consequently the `try`/`catch` in
the source `formatDate` never reaches its `catch` branch. -/

/-- Days in a month (proleptic Gregorian). -/
def daysInMonth (y m : Nat) : Nat :=
  if m = 2 then
    if y % 4 = 0 && (y % 100 ≠ 0 || y % 400 = 0) then 29 else 28
  else if m = 4 || m = 6 || m = 9 || m = 11 then 30
  else 31

/-- ECMAScript `new Date(string)` restricted to the ISO `YYYY-MM-DD` date
form; `none` is an invalid date. -/
def jsNewDate (s : String) : Option (Nat × Nat × Nat) :=
  match s.toList with
  | [y1, y2, y3, y4, '-', m1, m2, '-', d1, d2] =>
    if [y1, y2, y3, y4, m1, m2, d1, d2].all Char.isDigit then
      let y := ((y1.toNat * 10 + y2.toNat) * 10 + y3.toNat) * 10 + y4.toNat - 53328
      let m := m1.toNat * 10 + m2.toNat - 528
      let d := d1.toNat * 10 + d2.toNat - 528
      if 1 ≤ m && m ≤ 12 && 1 ≤ d && d ≤ daysInMonth y m then some (y, m, d)
      else none
    else none
  | _ => none

/-- The long month names of the `en-US` locale. -/
def monthLongName : Nat → String
  | 1 => "January" | 2 => "February" | 3 => "March" | 4 => "April"
  | 5 => "May" | 6 => "June" | 7 => "July" | 8 => "August"
  | 9 => "September" | 10 => "October" | 11 => "November" | 12 => "December"
  | _ => ""

/-- `toLocaleDateString('en-US', {year:'numeric', month:'long', day:'numeric'})`:
the long form for a valid date, the string `"Invalid Date"` for an invalid
one (ECMA-402: the method returns `"Invalid Date"` when the time value is
`NaN`; it does not throw). -/
def jsToLocaleDateStringEnUS : Option (Nat × Nat × Nat) → String
  | none => "Invalid Date"
  | some (y, m, d) => monthLongName m ++ " " ++ toString d ++ ", " ++ toString y

/-- `formatDate` from `dataParser.ts`.  The source wraps the body in
`try { … } catch { return dateStr }`, but no string input makes the body
throw, so the translation is the `try` branch alone. -/
def formatDate (dateStr : String) : String :=
  jsToLocaleDateStringEnUS (jsNewDate dateStr)

/-! ## Data model (`dataParser.ts` interfaces) -/

/-- A scholarship entry of a raw or parsed record. -/
structure Scholarship where
  name : String
  amount : String
  url : Option String
deriving DecidableEq, Repr

/-- The nested `ranking` object of a `RawUniversity`. -/
structure RawRanking where
  system : String
  value : JSNum
deriving DecidableEq, Repr

/-- The nested `acceptanceRate` object of a `RawUniversity`. -/
structure RawAcceptanceRate where
  value : JSNum
  estimated : Bool
deriving DecidableEq, Repr

/-- `RawUniversity` from `dataParser.ts`. -/
structure RawUniversity where
  rank : JSNum
  universityName : String
  cityCountry : String
  ranking : RawRanking
  programs : List String
  programStart : String
  appDeadline : String
  acceptanceRate : RawAcceptanceRate
  acceptanceCriteria : String
  scholarships : List Scholarship
  contact : String
  url : String
  imageUrl : Option String
  citations : Option (List String)
deriving DecidableEq, Repr

/-- `RawUniversityData` from `dataParser.ts`. -/
structure RawUniversityData where
  generatedOn : String
  rankingNote : String
  universities : List RawUniversity
deriving DecidableEq, Repr

/-- The nested `ranking` object of a `ParsedUniversity`. -/
structure ParsedRanking where
  system : String
  value : JSNum
  display : String
deriving DecidableEq, Repr

/-- The nested `appDeadline` object of a `ParsedUniversity`. -/
structure ParsedDeadline where
  date : String
  formatted : String
deriving DecidableEq, Repr

/-- The nested `acceptanceRate` object of a `ParsedUniversity`. -/
structure ParsedAcceptanceRate where
  value : JSNum
  estimated : Bool
  display : String
deriving DecidableEq, Repr

/-- The nested `contact` object of a `ParsedUniversity`. -/
structure ContactInfo where
  email : String
  isEmail : Bool
deriving DecidableEq, Repr

/-- `ParsedUniversity` from `dataParser.ts`. -/
structure ParsedUniversity where
  rank : JSNum
  universityName : String
  cityCountry : String
  ranking : ParsedRanking
  programs : List String
  programStart : String
  appDeadline : ParsedDeadline
  acceptanceRate : ParsedAcceptanceRate
  acceptanceCriteria : String
  scholarships : List Scholarship
  contact : ContactInfo
  url : String
  imageUrl : Option String
  citations : List String
deriving DecidableEq, Repr

/-- `AppMetadata` from `dataParser.ts`. -/
structure AppMetadata where
  generatedOn : String
  rankingNote : String
deriving DecidableEq, Repr

/-- The body of the `map` in `parseUniversityData`, for one record.  `st` is
the persistent `lastIndex` of the module-level `EMAIL_REGEX`, mutated by the
`isEmail` call and therefore threaded through the map. -/
def parseOne (st : Nat) (u : RawUniversity) : ParsedUniversity × Nat :=
  let e := isEmail u.contact st
  ({ rank := u.rank
     universityName := u.universityName
     cityCountry := u.cityCountry
     ranking := ⟨u.ranking.system, u.ranking.value,
                 u.ranking.system ++ " #" ++ jsNumToString u.ranking.value⟩
     programs := u.programs
     programStart := u.programStart
     appDeadline := ⟨u.appDeadline, formatDate u.appDeadline⟩
     acceptanceRate := ⟨u.acceptanceRate.value, u.acceptanceRate.estimated,
                        jsNumToString u.acceptanceRate.value ++ "%" ++
                          (if u.acceptanceRate.estimated then " (est.)" else "")⟩
     acceptanceCriteria := u.acceptanceCriteria
     scholarships := u.scholarships
     contact := ⟨u.contact, e.1⟩
     url := u.url
     imageUrl := u.imageUrl
     citations := u.citations.getD [] }, e.2)

/-- `rawData.universities.map(…)` with the regex state threaded left to right. -/
def parseAll (st : Nat) : List RawUniversity → List ParsedUniversity × Nat
  | [] => ([], st)
  | u :: rest =>
    let p := parseOne st u
    let q := parseAll p.2 rest
    (p.1 :: q.1, q.2)

/-- The filter predicate `uni => uni.universityName && uni.rank > 0` at the
end of `parseUniversityData` (a JavaScript string is truthy iff non-empty). -/
def keepUniversity (u : ParsedUniversity) : Bool :=
  !(u.universityName == "") && jsGtZero u.rank

/-- `parseUniversityData` from `dataParser.ts`: map every raw record to its
parsed shape, then drop records with an empty name or non-positive rank.
The extra `Nat` argument and result are the `EMAIL_REGEX.lastIndex` state. -/
def parseUniversityData (rawData : RawUniversityData) (st : Nat) :
    (List ParsedUniversity × AppMetadata) × Nat :=
  let q := parseAll st rawData.universities
  ((q.1.filter keepUniversity, ⟨rawData.generatedOn, rawData.rankingNote⟩), q.2)

/-! ## Query engine (`SearchFilters` in `DataVisualization.tsx`) -/

/-- The active filter controls of `SearchFilters`: the (debounced) search
term, the selected country, `rankingRange` as `[rankMin, rankMax]`,
`acceptanceRateRange` as `[rateMin, rateMax]` and the advanced-filters
toggle. -/
structure FilterCriteria where
  searchTerm : String
  selectedCountry : String
  rankMin : Rat
  rankMax : Rat
  rateMin : Rat
  rateMax : Rat
  showAdvancedFilters : Bool
deriving DecidableEq, Repr

/-- The text-search predicate of `SearchFilters` (the argument is the
already lower-cased search term). -/
def matchesSearch (searchLower : String) (u : ParsedUniversity) : Bool :=
  jsIncludes (jsToLower u.universityName) searchLower ||
  jsIncludes (jsToLower u.cityCountry) searchLower ||
  u.programs.any (fun p => jsIncludes (jsToLower p) searchLower) ||
  jsIncludes (jsToLower u.acceptanceCriteria) searchLower ||
  jsIncludes (jsToLower u.ranking.display) searchLower ||
  u.scholarships.any (fun s =>
    jsIncludes (jsToLower s.name) searchLower || jsIncludes (jsToLower s.amount) searchLower)

/-- The rank-range predicate (always active). -/
def inRankRange (c : FilterCriteria) (u : ParsedUniversity) : Bool :=
  jsGe u.rank c.rankMin && jsLe u.rank c.rankMax

/-- The acceptance-rate-range predicate (active in advanced mode). -/
def inRateRange (c : FilterCriteria) (u : ParsedUniversity) : Bool :=
  jsGe u.acceptanceRate.value c.rateMin && jsLe u.acceptanceRate.value c.rateMax

/-- The filtering effect in `SearchFilters`: the four `filter` passes applied
in sequence, each guarded exactly as in the source (`if (debouncedSearchTerm)`,
`if (selectedCountry)`, always, `if (showAdvancedFilters)`). -/
def filterUniversities (universities : List ParsedUniversity) (c : FilterCriteria) :
    List ParsedUniversity :=
  let f1 := if c.searchTerm ≠ "" then
      universities.filter (matchesSearch (jsToLower c.searchTerm)) else universities
  let f2 := if c.selectedCountry ≠ "" then
      f1.filter (fun u => jsIncludes u.cityCountry c.selectedCountry) else f1
  let f3 := f2.filter (inRankRange c)
  if c.showAdvancedFilters then f3.filter (inRateRange c) else f3

/-! ## Sorting by the `acceptanceRate` column (`sortedUniversities` in the
data table) -/

/-- The sort key of the `acceptanceRate` branch of `sortedUniversities`:
`aAcceptanceRate?.value || 999` — JavaScript `||`, so `NaN` *and `0`* fall
back to `999`. -/
def accKey (u : ParsedUniversity) : Rat :=
  jsOrNum u.acceptanceRate.value 999

/-- `y` comes strictly before `x` under the acceptance-rate comparator with
the given direction (`true` = ascending). -/
def accBefore (asc : Bool) (y x : ParsedUniversity) : Bool :=
  if asc then accKey y < accKey x else accKey x < accKey y

/-- Insert `x` into a sorted list, after every element strictly before it
(stable insertion). -/
def stableInsert (lt : α → α → Bool) (x : α) : List α → List α
  | [] => [x]
  | y :: ys => if lt y x then y :: stableInsert lt x ys else x :: y :: ys

/-- Stable sort (insertion sort).  `Array.prototype.sort` is required to be
stable, and every stable sort agrees with this one for a comparator that is
a total preorder, as the acceptance-rate comparator is. -/
def stableSortBy (lt : α → α → Bool) : List α → List α
  | [] => []
  | x :: xs => stableInsert lt x (stableSortBy lt xs)

/-- `sortedUniversities` for `sortConfig.column = 'acceptanceRate'`: a stable
sort of a copy of the list, comparing `aRate - bRate` (ascending) or
`bRate - aRate` (descending) where the rate is `value || 999`. -/
def sortByAcceptanceRate (asc : Bool) (l : List ParsedUniversity) : List ParsedUniversity :=
  stableSortBy (accBefore asc) l

/-! ## Pagination (data-table component) -/

/-- `ITEMS_PER_PAGE` from the data-table component. -/
def ITEMS_PER_PAGE : Nat := 25

/-- `totalPages = Math.ceil(sortedUniversities.length / ITEMS_PER_PAGE)` —
note: no lower bound is applied. -/
def totalPages (l : List α) : Nat :=
  (l.length + ITEMS_PER_PAGE - 1) / ITEMS_PER_PAGE

/-- `paginatedUniversities = sortedUniversities.slice(startIndex,
startIndex + ITEMS_PER_PAGE)` with `startIndex = (currentPage - 1) *
ITEMS_PER_PAGE` (pages are 1-based). -/
def paginatedUniversities (l : List α) (currentPage : Nat) : List α :=
  (l.drop ((currentPage - 1) * ITEMS_PER_PAGE)).take ITEMS_PER_PAGE

/-! ## Spec-side email shape -/

/-- Modelled from the spec: the *entire* string matches the
`local@domain.tld` shape — local part of `[\w.-]` characters, `@`, domain of
`[\w.-]` characters, a literal dot, and a TLD of at least two letters.  The
check enumerates the position `i` of the `@` and the position `j` of the
TLD dot. -/
def emailEntireShape (s : String) : Bool :=
  let m := s.toList
  (List.range m.length).any fun i =>
    (List.range m.length).any fun j =>
      (m[i]? == some '@') && (m[j]? == some '.') &&
      1 ≤ i && (m.take i).all isLocalChar &&
      i + 2 ≤ j && ((m.take j).drop (i + 1)).all isLocalChar &&
      2 ≤ (m.drop (j + 1)).length && (m.drop (j + 1)).all isTldChar

/-- The string contains a substring of the `local@domain.tld` shape: a
non-empty `[\w.-]` local part, `@`, a non-empty `[\w.-]` domain chunk, a
dot, and at least two letters. -/
def EmailShapeSubstring (s : String) : Prop :=
  ∃ pre lp d t post : List Char,
    s.toList = pre ++ (lp ++ ('@' :: (d ++ ('.' :: (t ++ post))))) ∧
    lp ≠ [] ∧ lp.all isLocalChar = true ∧
    d ≠ [] ∧ d.all isLocalChar = true ∧
    2 ≤ t.length ∧ t.all isTldChar = true

/-! ## Concrete sample data used by witnesses and counterexamples -/

/-- Build a small `ParsedUniversity` with the given name, location, rank and
acceptance-rate value. -/
def mkSample (name city : String) (rk : Rat) (rate : JSNum) : ParsedUniversity :=
  { rank := .num rk
    universityName := name
    cityCountry := city
    ranking := ⟨"QS", .num 1, "QS #1"⟩
    programs := ["CS"]
    programStart := "Fall"
    appDeadline := ⟨"Jan 2025", "Jan 2025"⟩
    acceptanceRate := ⟨rate, false, "5%"⟩
    acceptanceCriteria := "GPA"
    scholarships := [⟨"S", "1000", none⟩]
    contact := ⟨"a@b.co", true⟩
    url := "http://u.e"
    imageUrl := none
    citations := [] }

/-- Sample record located in Canada, acceptance-rate value 50. -/
def sampleCanada : ParsedUniversity := mkSample "Alpha" "Toronto, Canada" 1 (.num 50)

/-- Sample record located in the USA, acceptance-rate value 0. -/
def sampleUSA : ParsedUniversity := mkSample "Beta" "Boston, USA" 2 (.num 0)

/-- Filter criteria selecting the country `"Canada"`, everything else inactive
or spanning the whole range. -/
def sampleCriteriaCanada : FilterCriteria :=
  ⟨"", "Canada", 0, 100, 0, 100, false⟩

/-- A raw record that survives normalization. -/
def sampleRawValid : RawUniversity :=
  { rank := .num 1
    universityName := "Alpha"
    cityCountry := "Toronto, Canada"
    ranking := ⟨"QS", .num 1⟩
    programs := ["CS"]
    programStart := "Fall"
    appDeadline := "2025-01-15"
    acceptanceRate := ⟨.num 12, true⟩
    acceptanceCriteria := "GPA"
    scholarships := []
    contact := "a@b.co"
    url := "http://u.e"
    imageUrl := none
    citations := none }

/-- A raw record dropped by normalization (empty name). -/
def sampleRawInvalid : RawUniversity :=
  { rank := .num 2
    universityName := ""
    cityCountry := "X"
    ranking := ⟨"QS", .num 2⟩
    programs := []
    programStart := "F"
    appDeadline := "bad"
    acceptanceRate := ⟨.nan, false⟩
    acceptanceCriteria := ""
    scholarships := []
    contact := "no"
    url := "u"
    imageUrl := none
    citations := none }

/-- A two-record raw dataset (one record valid, one invalid). -/
def sampleRawData : RawUniversityData :=
  ⟨"2025", "note", [sampleRawValid, sampleRawInvalid]⟩

/-- The parsed image of `sampleRawValid` (regex state 0). -/
def sampleParsedAlpha : ParsedUniversity := (parseOne 0 sampleRawValid).1

/-! ## Helper lemmas -/

theorem takeWhile_all {p : α → Bool} (l : List α) : (l.takeWhile p).all p = true :=
  List.all_eq_true.mpr fun _ hx => List.mem_takeWhile_imp hx

theorem takeWhile_append_of_all {p : α → Bool} {xs : List α} (ys : List α)
    (h : xs.all p = true) : (xs ++ ys).takeWhile p = xs ++ ys.takeWhile p := by
  induction xs with
  | nil => simp
  | cons a t ih =>
    simp only [List.all_cons, Bool.and_eq_true] at h
    simp [List.takeWhile_cons_of_pos h.1, ih h.2]

theorem take_length_takeWhile {p : α → Bool} (l : List α) :
    l.take ((l.takeWhile p).length) = l.takeWhile p := by
  induction l with
  | nil => simp
  | cons a t ih =>
    by_cases h : p a = true
    · simp [List.takeWhile_cons_of_pos h, ih]
    · simp [List.takeWhile_cons_of_neg h]

theorem take_all_of_le_takeWhile {p : α → Bool} {l : List α} {k : Nat}
    (hk : k ≤ (l.takeWhile p).length) : (l.take k).all p = true := by
  have hsplit : l = l.takeWhile p ++ l.dropWhile p := (List.takeWhile_append_dropWhile p l).symm
  refine List.all_eq_true.mpr fun x hx => ?_
  have : x ∈ (l.takeWhile p).take k := by
    rw [hsplit, List.take_append_of_le_length hk] at hx
    exact hx
  exact List.mem_takeWhile_imp (List.mem_of_mem_take this)

theorem descRange_mem {n k : Nat} : k ∈ descRange n ↔ 1 ≤ k ∧ k ≤ n := by
  unfold descRange
  constructor
  · intro h
    obtain ⟨i, hi, hk⟩ := List.mem_map.mp h
    have := List.mem_range.mp hi
    omega
  · intro h
    exact List.mem_map.mpr ⟨n - k, List.mem_range.mpr (by omega), by omega⟩

theorem searchFirst_some {f : List Char → Option Nat} :
    ∀ {l : List Char} {p0 p e : Nat}, searchFirst f l p0 = some (p, e) →
      ∃ j n, p = p0 + j ∧ e = p + n ∧ f (l.drop j) = some n := by
  intro l
  induction l with
  | nil => intro p0 p e h; simp [searchFirst] at h
  | cons c t ih =>
    intro p0 p e h
    unfold searchFirst at h
    cases hf : f (c :: t) with
    | some n =>
      rw [hf] at h
      injection h with h2
      injection h2 with h3 h4
      exact ⟨0, n, by omega, by omega, by simpa [← h3, ← h4] using hf⟩
    | none =>
      rw [hf] at h
      obtain ⟨j, n, hp, he, hm⟩ := ih h
      exact ⟨j + 1, n, by omega, he, by simpa using hm⟩

theorem searchFirst_isSome_of {f : List Char → Option Nat} (hnil : f [] = none) :
    ∀ {l : List Char} (p0 j n : Nat), f (l.drop j) = some n → (searchFirst f l p0).isSome = true := by
  intro l
  induction l with
  | nil =>
    intro p0 j n h
    simp at h
    rw [hnil] at h
    cases h
  | cons c t ih =>
    intro p0 j n h
    unfold searchFirst
    cases hf : f (c :: t) with
    | some m => simp
    | none =>
      cases j with
      | zero =>
        rw [List.drop_zero] at h
        rw [hf] at h
        cases h
      | succ j2 =>
        simp only []
        exact ih (p0 + 1) j2 n (by simpa using h)

theorem matchDomainTail_some {l : List Char} {n : Nat} (h : matchDomainTail l = some n) :
    ∃ k, 1 ≤ k ∧ k < l.length ∧ l[k]? = some '.' ∧ (l.take k).all isLocalChar = true ∧
      2 ≤ ((l.drop (k + 1)).takeWhile isTldChar).length ∧
      n = k + 1 + ((l.drop (k + 1)).takeWhile isTldChar).length := by
  unfold matchDomainTail at h
  simp only [] at h
  cases hf : (descRange ((l.takeWhile isLocalChar).length)).find?
      (fun k => (l[k]? == some '.') && decide (2 ≤ ((l.drop (k + 1)).takeWhile isTldChar).length)) with
  | none => rw [hf] at h; cases h
  | some k =>
    rw [hf] at h
    injection h with h2
    have hpred := List.find?_some hf
    simp only [Bool.and_eq_true, beq_iff_eq, decide_eq_true_eq] at hpred
    have hmem := descRange_mem.mp (List.mem_of_find?_eq_some hf)
    have hklt : k < l.length := (List.getElem?_eq_some.mp hpred.1).1
    refine ⟨k, hmem.1, hklt, hpred.1, take_all_of_le_takeWhile hmem.2, hpred.2, h2.symm⟩

theorem matchDomainTail_isSome {d t post : List Char} (hd : d ≠ [])
    (hdall : d.all isLocalChar = true) (ht2 : 2 ≤ t.length) (htall : t.all isTldChar = true) :
    (matchDomainTail (d ++ ('.' :: (t ++ post)))).isSome = true := by
  have hdot : isLocalChar '.' = true := by decide
  have hrun : d.length + 1 ≤ ((d ++ ('.' :: (t ++ post))).takeWhile isLocalChar).length := by
    rw [takeWhile_append_of_all _ hdall, List.takeWhile_cons_of_pos hdot]
    simp
  have hmem : d.length ∈ descRange ((d ++ ('.' :: (t ++ post))).takeWhile isLocalChar).length := by
    refine descRange_mem.mpr ⟨?_, by omega⟩
    have := List.length_pos.mpr hd
    omega
  have hdotat : (d ++ ('.' :: (t ++ post)))[d.length]? = some '.' := by
    rw [List.getElem?_append_right (le_refl _)]
    simp
  have hdrop : (d ++ ('.' :: (t ++ post))).drop (d.length + 1) = t ++ post := by
    have heq : d ++ ('.' :: (t ++ post)) = (d ++ ['.']) ++ (t ++ post) := by simp
    have hlen : d.length + 1 = (d ++ ['.']).length := by simp
    rw [heq, hlen, List.drop_left]
  have htld : 2 ≤ (((d ++ ('.' :: (t ++ post))).drop (d.length + 1)).takeWhile isTldChar).length := by
    rw [hdrop, takeWhile_append_of_all _ htall]
    simp
    omega
  have hfind : ((descRange ((d ++ ('.' :: (t ++ post))).takeWhile isLocalChar).length).find?
      (fun k => ((d ++ ('.' :: (t ++ post)))[k]? == some '.') &&
        decide (2 ≤ (((d ++ ('.' :: (t ++ post))).drop (k + 1)).takeWhile isTldChar).length))).isSome = true := by
    refine List.find?_isSome.mpr ⟨d.length, hmem, ?_⟩
    simp only [Bool.and_eq_true, beq_iff_eq, decide_eq_true_eq]
    exact ⟨hdotat, htld⟩
  unfold matchDomainTail
  simp only []
  obtain ⟨k, hk⟩ := Option.isSome_iff_exists.mp hfind
  rw [hk]
  simp

theorem matchEmailAt_some {l : List Char} {n : Nat} (h : matchEmailAt l = some n) :
    ∃ lp d t rest2, l = lp ++ ('@' :: (d ++ ('.' :: (t ++ rest2)))) ∧
      lp ≠ [] ∧ lp.all isLocalChar = true ∧ d ≠ [] ∧ d.all isLocalChar = true ∧
      2 ≤ t.length ∧ t.all isTldChar = true := by
  unfold matchEmailAt at h
  simp only [] at h
  split at h
  · cases h
  · rename_i hne
    split at h
    · rename_i rest heq
      obtain ⟨dn, hdn, _⟩ := Option.map_eq_some'.mp h
      obtain ⟨k, hk1, hklt, hkdot, hkall, hktld, _⟩ := matchDomainTail_some hdn
      have hlp : l = l.takeWhile isLocalChar ++ ('@' :: rest) := by
        conv_lhs => rw [← List.take_append_drop ((l.takeWhile isLocalChar).length) l]
        rw [take_length_takeWhile, heq]
      have hrest : rest = rest.take k ++ ('.' :: ((rest.drop (k + 1)).takeWhile isTldChar ++
          (rest.drop (k + 1)).dropWhile isTldChar)) := by
        conv_lhs => rw [← List.take_append_drop k rest]
        rw [List.drop_eq_getElem_cons hklt, (List.getElem?_eq_some.mp hkdot).2,
          List.takeWhile_append_dropWhile]
      have hgoal : l = l.takeWhile isLocalChar ++ ('@' :: (rest.take k ++
          ('.' :: ((rest.drop (k + 1)).takeWhile isTldChar ++
            (rest.drop (k + 1)).dropWhile isTldChar)))) := by
        conv_lhs => rw [hlp]
        exact congrArg (fun z => l.takeWhile isLocalChar ++ ('@' :: z)) hrest
      refine ⟨l.takeWhile isLocalChar, rest.take k, (rest.drop (k + 1)).takeWhile isTldChar,
        (rest.drop (k + 1)).dropWhile isTldChar, hgoal, ?_, takeWhile_all l, ?_, hkall, hktld,
        takeWhile_all _⟩
      · intro hcon
        rw [List.isEmpty_iff] at hne
        exact hne hcon
      · intro hcon
        rcases List.take_eq_nil_iff.mp hcon with h0 | h0
        · omega
        · rw [h0] at hklt
          simp at hklt
    · cases h

theorem matchEmailAt_isSome {lp d t rest2 : List Char} (hlp : lp ≠ [])
    (h1 : lp.all isLocalChar = true) (hd : d ≠ []) (h2 : d.all isLocalChar = true)
    (ht : 2 ≤ t.length) (h3 : t.all isTldChar = true) :
    (matchEmailAt (lp ++ ('@' :: (d ++ ('.' :: (t ++ rest2)))))).isSome = true := by
  have htw : (lp ++ ('@' :: (d ++ ('.' :: (t ++ rest2))))).takeWhile isLocalChar = lp := by
    rw [takeWhile_append_of_all _ h1, List.takeWhile_cons_of_neg (by decide)]
    simp
  unfold matchEmailAt
  simp only [htw]
  rw [if_neg (by simpa [List.isEmpty_iff] using hlp)]
  rw [List.drop_left]
  simp only []
  have hdt : (matchDomainTail (d ++ ('.' :: (t ++ rest2)))).isSome = true :=
    matchDomainTail_isSome hd h2 ht h3
  obtain ⟨dn, hdn⟩ := Option.isSome_iff_exists.mp hdt
  rw [hdn]
  simp

theorem matchEmailAt_nil : matchEmailAt [] = none := by decide

theorem parseAll_length (st : Nat) (l : List RawUniversity) :
    (parseAll st l).1.length = l.length := by
  induction l generalizing st with
  | nil => rfl
  | cons u rest ih => simp [parseAll, ih]

theorem stableInsert_mem {lt : α → α → Bool} {x z : α} {l : List α} :
    z ∈ stableInsert lt x l ↔ z = x ∨ z ∈ l := by
  induction l with
  | nil => simp [stableInsert]
  | cons y ys ih =>
    unfold stableInsert
    by_cases h : lt y x = true
    · simp [h, ih]
      try tauto
    · simp [h]
      try tauto

theorem stableInsert_sorted_key {key : α → Rat} {x : α} {l : List α}
    (h : l.Pairwise (fun a b => key a ≤ key b)) :
    (stableInsert (fun a b => key a < key b) x l).Pairwise (fun a b => key a ≤ key b) := by
  induction l with
  | nil => simp [stableInsert]
  | cons y ys ih =>
    have hy := List.pairwise_cons.mp h
    unfold stableInsert
    by_cases hlt : (key y < key x : Bool) = true
    · simp only [hlt, if_true]
      refine List.pairwise_cons.mpr ⟨?_, ih hy.2⟩
      intro z hz
      rcases stableInsert_mem.mp hz with hzx | hzy
      · subst hzx
        simp only [decide_eq_true_eq] at hlt
        exact le_of_lt hlt
      · exact hy.1 z hzy
    · simp only [hlt]
      simp only [Bool.not_eq_true] at hlt
      rw [if_neg (by simp [hlt])]
      refine List.pairwise_cons.mpr ⟨?_, h⟩
      intro z hz
      have hxy : key x ≤ key y := by
        simp only [decide_eq_false_iff_not, not_lt] at hlt
        exact hlt
      rcases List.mem_cons.mp hz with hzy | hzys
      · subst hzy; exact hxy
      · exact le_trans hxy (hy.1 z hzys)

theorem stableSortBy_sorted_key (key : α → Rat) (l : List α) :
    (stableSortBy (fun a b => key a < key b) l).Pairwise (fun a b => key a ≤ key b) := by
  induction l with
  | nil => simp [stableSortBy]
  | cons x xs ih => exact stableInsert_sorted_key ih

/-! ## Claims -/

/-- C1: for every list of raw records (and every regex state), the
normalizer's output is no longer than its input, and every output record has
a non-empty name and a rank strictly greater than 0 — records failing the
condition are dropped by the final filter and never surface. -/
theorem normalize_shrinks_and_validates (rawData : RawUniversityData) (st : Nat) :
    (parseUniversityData rawData st).1.1.length ≤ rawData.universities.length ∧
    ∀ u ∈ (parseUniversityData rawData st).1.1, u.universityName ≠ "" ∧ jsGtZero u.rank = true := by
  constructor
  · unfold parseUniversityData
    simp only []
    calc (List.filter keepUniversity (parseAll st rawData.universities).1).length
        ≤ (parseAll st rawData.universities).1.length := List.length_filter_le _ _
      _ = rawData.universities.length := parseAll_length st rawData.universities
  · intro u hu
    unfold parseUniversityData at hu
    simp only [] at hu
    have hk := (List.mem_filter.mp hu).2
    unfold keepUniversity at hk
    simp only [Bool.and_eq_true, Bool.not_eq_true', beq_eq_false_iff_ne] at hk
    exact hk

/-- C1 witness: the theorem applied to the two-record sample dataset and to
the surviving parsed record. -/
theorem normalize_shrinks_and_validates_witness :
    (parseUniversityData sampleRawData 0).1.1.length ≤ sampleRawData.universities.length ∧
    (sampleParsedAlpha.universityName ≠ "" ∧ jsGtZero sampleParsedAlpha.rank = true) :=
  ⟨(normalize_shrinks_and_validates sampleRawData 0).1,
   (normalize_shrinks_and_validates sampleRawData 0).2 sampleParsedAlpha (by decide)⟩

/-- C2: filtering is the conjunction of the active predicates.  With a
selected country, a record is in the output iff it is in the input and
passes the search predicate (when a term is set), contains the country as a
substring of `cityCountry`, lies in the rank range, and (in advanced mode)
lies in the rate range; with an empty country, membership is characterised
by the remaining predicates alone. -/
theorem filter_is_predicate_conjunction (records : List ParsedUniversity)
    (c : FilterCriteria) (u : ParsedUniversity) :
    (c.selectedCountry ≠ "" →
      (u ∈ filterUniversities records c ↔
        u ∈ records ∧
        (c.searchTerm ≠ "" → matchesSearch (jsToLower c.searchTerm) u = true) ∧
        jsIncludes u.cityCountry c.selectedCountry = true ∧
        inRankRange c u = true ∧
        (c.showAdvancedFilters = true → inRateRange c u = true))) ∧
    (c.selectedCountry = "" →
      (u ∈ filterUniversities records c ↔
        u ∈ records ∧
        (c.searchTerm ≠ "" → matchesSearch (jsToLower c.searchTerm) u = true) ∧
        inRankRange c u = true ∧
        (c.showAdvancedFilters = true → inRateRange c u = true))) := by
  unfold filterUniversities
  by_cases hs : c.searchTerm = "" <;>
    by_cases hc : c.selectedCountry = "" <;>
      by_cases ha : c.showAdvancedFilters = true <;>
        simp [hs, hc, ha, List.mem_filter] <;> tauto

/-- C2 witness: with country `"Canada"` selected, the Canadian sample record
is returned and the US one is not. -/
theorem filter_is_predicate_conjunction_witness :
    sampleCanada ∈ filterUniversities [sampleCanada, sampleUSA] sampleCriteriaCanada ∧
    sampleUSA ∉ filterUniversities [sampleCanada, sampleUSA] sampleCriteriaCanada := by
  constructor
  · exact ((filter_is_predicate_conjunction [sampleCanada, sampleUSA] sampleCriteriaCanada
      sampleCanada).1 (by decide)).mpr (by decide)
  · intro hmem
    have hcon := ((filter_is_predicate_conjunction [sampleCanada, sampleUSA] sampleCriteriaCanada
      sampleUSA).1 (by decide)).mp hmem
    revert hcon
    decide

/-- C3 counterexample: `EMAIL_REGEX` is unanchored, so `isEmail` returns
true on a string that merely *contains* an email as a proper substring and
does not itself have the `local@domain.tld` shape. -/
theorem isEmail_substring_counterexample :
    (isEmail "x a.b@uni.edu y" 0).1 = true ∧ emailEntireShape "x a.b@uni.edu y" = false := by
  decide

/-- C3 (amended): from the initial regex state, `isEmail` returns true iff
the string *contains* a substring of the `local@domain.tld` shape; in
particular it is true on `"a.b@uni.edu"` and false on `"not an email"`. -/
theorem isEmail_contains_shape (s : String) :
    ((isEmail s 0).1 = true ↔ EmailShapeSubstring s) ∧
    (isEmail "a.b@uni.edu" 0).1 = true ∧ (isEmail "not an email" 0).1 = false := by
  refine ⟨⟨?_, ?_⟩, by decide, by decide⟩
  · intro h
    unfold isEmail at h
    simp only [] at h
    rw [if_neg (by omega), List.drop_zero] at h
    cases hsf : searchFirst matchEmailAt s.toList 0 with
    | none => rw [hsf] at h; simp at h
    | some pe =>
      obtain ⟨j, n, hp, he, hm⟩ := searchFirst_some hsf
      obtain ⟨lp, d, t, rest2, hdec, hlp, h1, hd, h2, ht, h3⟩ := matchEmailAt_some hm
      refine ⟨s.toList.take j, lp, d, t, rest2, ?_, hlp, h1, hd, h2, ht, h3⟩
      conv_lhs => rw [← List.take_append_drop j s.toList]
      exact congrArg (fun z => s.toList.take j ++ z) hdec
  · intro h
    obtain ⟨pre, lp, d, t, post, hdec, hlp, h1, hd, h2, ht, h3⟩ := h
    unfold isEmail
    simp only []
    rw [if_neg (by omega), List.drop_zero]
    have hm : (matchEmailAt (s.toList.drop pre.length)).isSome = true := by
      rw [hdec, List.drop_left]
      exact matchEmailAt_isSome hlp h1 hd h2 ht h3
    obtain ⟨n, hn⟩ := Option.isSome_iff_exists.mp hm
    have hss := searchFirst_isSome_of matchEmailAt_nil 0 pre.length n hn
    obtain ⟨pe, hpe⟩ := Option.isSome_iff_exists.mp hss
    rw [hpe]

/-- C3 witness: the equivalence applied to `"a.b@uni.edu"`, discharging the
left-hand side by evaluation. -/
theorem isEmail_contains_shape_witness : EmailShapeSubstring "a.b@uni.edu" :=
  ((isEmail_contains_shape "a.b@uni.edu").1).mp (by decide)

/-- C4: `EMAIL_REGEX` has the `g` flag, so `EMAIL_REGEX.test` advances the
persistent `lastIndex`; two successive `isEmail` calls on the identical
input `"a.b@uni.edu"` return `true` then `false`. -/
theorem isEmail_repeat_call_differs :
    (isEmail "a.b@uni.edu" 0).1 = true ∧
    (isEmail "a.b@uni.edu" (isEmail "a.b@uni.edu" 0).2).1 = false := by decide

/-- C5: `new Date` never throws, so `formatDate`'s `catch` branch is dead
code: an unparseable deadline string is rendered as `"Invalid Date"`, not
returned unmodified. -/
theorem formatDate_unparseable_not_raw :
    formatDate "not a date" = "Invalid Date" ∧ formatDate "not a date" ≠ "not a date" := by decide

/-- C6 counterexample: for the second date shape the capture group covers
only the month alternation, so `parseDeadline "Jan 2025"` returns the date
`"Jan"`, not the whole matched text `"Jan 2025"`. -/
theorem parseDeadline_monyear_counterexample :
    parseDeadline "Jan 2025" = some ⟨"Jan", "", []⟩ ∧ ("Jan" : String) ≠ "Jan 2025" := by decide

/-- C6 (amended): `parseDeadline` strips links first and tries the three
shapes in order; shapes one and three return the whole matched text, shape
two returns only the abbreviated month (its capture group); `notes` always
has the whole match removed, and a matchless input yields an empty `date`
without error. -/
theorem parseDeadline_shapes_in_order :
    parseDeadline "Due 2025-01-15 ok" = some ⟨"2025-01-15", "Due  ok", []⟩ ∧
    parseDeadline "Jan 2025 or 2025-01-15" = some ⟨"2025-01-15", "Jan 2025 or", []⟩ ∧
    parseDeadline "apply by Jan 2025 midyear" = some ⟨"Jan", "apply by  midyear", []⟩ ∧
    parseDeadline "January 15, 2025" = some ⟨"January 15, 2025", "", []⟩ ∧
    parseDeadline "rolling" = some ⟨"", "rolling", []⟩ := by decide

/-- C7 counterexample: removing the two URLs leaves a double space between
`"see"` and `"and"`; `trim` only strips the ends, so the text is
`"see  and"`, not `"see and"`. -/
theorem extractLinks_example_counterexample :
    extractLinks "see http://a.com and http://b.com" =
      some ⟨"see  and", ["http://a.com", "http://b.com"]⟩ ∧
    ("see  and" : String) ≠ "see and" := by decide

/-- C7 (amended): `extractLinks` yields the empty result on empty input,
removes every URL match, returns the end-trimmed remainder (interior
whitespace preserved: `"see  and"`) with the matches in order of
appearance, each percent-decoded. -/
theorem extractLinks_examples :
    extractLinks "" = some ⟨"", []⟩ ∧
    extractLinks "see http://a.com and http://b.com" =
      some ⟨"see  and", ["http://a.com", "http://b.com"]⟩ ∧
    extractLinks "go http://x.com/a%20b now" = some ⟨"go  now", ["http://x.com/a b"]⟩ := by decide

/-- C8 counterexample: the sort key is `value || 999`, so a present
acceptance-rate value of `0` is compared as `999` and sorts *last* in
ascending order, not by its own value. -/
theorem acceptance_sort_zero_counterexample :
    sampleUSA.acceptanceRate.value = JSNum.num 0 ∧
    accKey sampleUSA = 999 ∧
    sortByAcceptanceRate true [sampleUSA, sampleCanada] = [sampleCanada, sampleUSA] := by decide

/-- C8 (amended): records whose value is missing (`NaN`) *or zero* are
compared as 999; records with a present non-zero value are compared by that
value; and the ascending sort is ordered by this key. -/
theorem acceptance_sort_key (u : ParsedUniversity) :
    (u.acceptanceRate.value = JSNum.nan ∨ u.acceptanceRate.value = JSNum.num 0 →
      accKey u = 999) ∧
    (∀ x : Rat, u.acceptanceRate.value = JSNum.num x → x ≠ 0 → accKey u = x) ∧
    (∀ l : List ParsedUniversity,
      (sortByAcceptanceRate true l).Pairwise (fun a b => accKey a ≤ accKey b)) := by
  refine ⟨?_, ?_, ?_⟩
  · rintro (h | h) <;> simp [accKey, jsOrNum, h]
  · intro x hx hne
    simp [accKey, jsOrNum, hx, hne]
  · intro l
    have hsort := stableSortBy_sorted_key accKey l
    unfold sortByAcceptanceRate
    have hcmp : accBefore true = fun a b => (accKey a < accKey b : Bool) := by
      funext a b
      simp [accBefore]
    rw [hcmp]
    exact hsort

/-- C8 witness: the key characterisation applied to the sample records with
values 50 and 0. -/
theorem acceptance_sort_key_witness :
    accKey sampleCanada = 50 ∧ accKey sampleUSA = 999 :=
  ⟨(acceptance_sort_key sampleCanada).2.1 50 (by decide) (by decide),
   (acceptance_sort_key sampleUSA).1 (Or.inr (by decide))⟩

/-- C9 counterexample: `totalPages` applies no minimum, so the empty list
has 0 total pages, not 1. -/
theorem totalPages_empty_counterexample :
    totalPages ([] : List ParsedUniversity) = 0 ∧
    totalPages ([] : List ParsedUniversity) ≠ 1 := by decide

/-- C9 (amended): `totalPages` is exactly the ceiling of length / 25 (so 0
for the empty list, with no minimum of 1), and for a 30-element list page 2
holds exactly elements 26–30 (5 records) with 2 total pages. -/
theorem pagination_ceiling_and_page2 (l : List ParsedUniversity) :
    (l.length ≤ ITEMS_PER_PAGE * totalPages l ∧
      ∀ m : Nat, l.length ≤ ITEMS_PER_PAGE * m → totalPages l ≤ m) ∧
    paginatedUniversities (List.range 30) 2 = (List.range 30).drop 25 ∧
    (paginatedUniversities (List.range 30) 2).length = 5 ∧
    totalPages (List.range 30) = 2 := by
  refine ⟨⟨?_, ?_⟩, by decide, by decide, by decide⟩
  · unfold totalPages ITEMS_PER_PAGE
    have := Nat.div_add_mod (l.length + 24) 25
    have := Nat.mod_lt (l.length + 24) (show 0 < 25 by omega)
    omega
  · intro m hm
    unfold totalPages ITEMS_PER_PAGE at *
    have := Nat.div_add_mod (l.length + 24) 25
    have := Nat.mod_lt (l.length + 24) (show 0 < 25 by omega)
    omega

/-- C9 witness: the minimality clause applied to a one-record list. -/
theorem pagination_ceiling_and_page2_witness :
    totalPages [sampleCanada] ≤ 1 :=
  (pagination_ceiling_and_page2 [sampleCanada]).1.2 1 (by decide)

/-- C10: `extractLinks` is not total — on a URL with a malformed percent
escape, `decodeURIComponent` throws `URIError` (modelled `none`) and the
exception escapes `extractLinks`. -/
theorem extractLinks_throws_on_malformed_escape :
    extractLinks "see http://x.com/%E0%A4%A" = none := by decide
